import Mathlib

set_option maxHeartbeats 1000000

/- Shallow embedding of the trustpilot-scraper repository:
   * trustpilot_scraper.py          (prefix og_)
   * trustpilot_scraper_dupefix.py  (prefix df_)
   * sortingapp/app/scrape_reviews.py (prefix sa_)
   * dedupe_results.py              (prefix dr_)
   Machine integers are modelled with Nat (mod 2^32 / 2^64 where the code
   wraps); dates are modelled as abstract Int timeline values paired with
   their normalized ISO string (the pair models Python's datetime value
   together with strftime("%Y-%m-%d")). -/

/-- Python str.strip on a character list: drop whitespace from both ends. -/
def strip_chars (l : List Char) : List Char :=
  (((l.dropWhile Char.isWhitespace).reverse).dropWhile Char.isWhitespace).reverse

/-- Python str.strip on a String. -/
def py_strip (s : String) : String := String.mk (strip_chars s.data)

/-- Whether the first list is a leading segment of the second (char lists). -/
def list_starts : List Char → List Char → Bool
  | [], _ => true
  | _ :: _, [] => false
  | a :: as, b :: bs => a == b && list_starts as bs

/-- Whether needle occurs contiguously inside hay (char lists). -/
def list_has_sub (needle : List Char) : List Char → Bool
  | [] => needle.isEmpty
  | b :: bs => list_starts needle (b :: bs) || list_has_sub needle bs

/-- Python "needle in hay" substring test on strings. -/
def py_in (needle hay : String) : Bool := list_has_sub needle.data hay.data

/-- Python str.lower (per-character lowering). -/
def str_lower (s : String) : String := String.mk (s.data.map Char.toLower)

/-- Python str.endswith on strings, via reversed character lists. -/
def ends_with (s suffixStr : String) : Bool :=
  list_starts suffixStr.data.reverse s.data.reverse

/-- Python truthiness of an optional integer (None and 0 are falsy). -/
def py_truthy_nat (o : Option Nat) : Bool :=
  match o with
  | none => false
  | some n => n != 0

/-- canonical_link from trustpilot_scraper_dupefix.py / sortingapp: for a
falsy href return ""; otherwise cut at the first '#', then at the first
'?', then strip surrounding whitespace. -/
def canonical_link (href : Option String) : String :=
  match href with
  | none => ""
  | some h =>
    if h = "" then ""
    else py_strip (String.mk ((h.data.takeWhile (· != '#')).takeWhile (· != '?')))

/-- Keyword acceptance, the AND/OR block shared verbatim by all three
scraper loops: add_review starts True; if keyword_and is non-empty and not
all AND terms occur (case-insensitively) in the text, set it False; if
keyword_or is non-empty and no OR term occurs, set it False only when
keyword_and is empty (otherwise keep the AND verdict). -/
def keyword_accepts (keyword_and keyword_or : List String) (text : String) : Bool :=
  let add1 :=
    if !keyword_and.isEmpty
        && !(keyword_and.all fun k => py_in (str_lower k) (str_lower text)) then
      false
    else true
  if !keyword_or.isEmpty
      && !(keyword_or.any fun k => py_in (str_lower k) (str_lower text)) then
    if keyword_and.isEmpty then false else add1
  else add1

/- ----------------------- SHA-256 (hashlib.sha256(...).hexdigest()) ----- -/

/-- Reduce modulo 2^32. -/
def w32mod (n : Nat) : Nat := n % 4294967296

/-- 32-bit right rotation (for x < 2^32). -/
def rotr32 (n x : Nat) : Nat := w32mod (x / 2 ^ n + x % 2 ^ n * 2 ^ (32 - n))

/-- 32-bit bitwise complement (for x < 2^32). -/
def not32 (x : Nat) : Nat := 4294967295 - x

/-- SHA-256 Ch function. -/
def sha_ch (e f g : Nat) : Nat := Nat.xor (Nat.land e f) (Nat.land (not32 e) g)

/-- SHA-256 Maj function. -/
def sha_maj (a b c : Nat) : Nat :=
  Nat.xor (Nat.land a b) (Nat.xor (Nat.land a c) (Nat.land b c))

/-- SHA-256 big sigma 0. -/
def bsig0 (x : Nat) : Nat := Nat.xor (rotr32 2 x) (Nat.xor (rotr32 13 x) (rotr32 22 x))

/-- SHA-256 big sigma 1. -/
def bsig1 (x : Nat) : Nat := Nat.xor (rotr32 6 x) (Nat.xor (rotr32 11 x) (rotr32 25 x))

/-- SHA-256 small sigma 0. -/
def ssig0 (x : Nat) : Nat := Nat.xor (rotr32 7 x) (Nat.xor (rotr32 18 x) (x / 2 ^ 3))

/-- SHA-256 small sigma 1. -/
def ssig1 (x : Nat) : Nat := Nat.xor (rotr32 17 x) (Nat.xor (rotr32 19 x) (x / 2 ^ 10))

/-- SHA-256 round constants. -/
def shaK : List Nat :=
  [1116352408, 1899447441, 3049323471, 3921009573, 961987163,
   1508970993, 2453635748, 2870763221, 3624381080, 310598401,
   607225278, 1426881987, 1925078388, 2162078206, 2614888103,
   3248222580, 3835390401, 4022224774, 264347078, 604807628,
   770255983, 1249150122, 1555081692, 1996064986, 2554220882,
   2821834349, 2952996808, 3210313671, 3336571891, 3584528711,
   113926993, 338241895, 666307205, 773529912, 1294757372,
   1396182291, 1695183700, 1986661051, 2177026350, 2456956037,
   2730485921, 2820302411, 3259730800, 3345764771, 3516065817,
   3600352804, 4094571909, 275423344, 430227734, 506948616,
   659060556, 883997877, 958139571, 1322822218, 1537002063,
   1747873779, 1955562222, 2024104815, 2227730452, 2361852424,
   2428436474, 2756734187, 3204031479, 3329325298]

/-- SHA-256 initial hash value. -/
def shaH0 : List Nat :=
  [1779033703, 3144134277, 1013904242, 2773480762,
   1359893119, 2600822924, 528734635, 1541459225]

/-- Extend a 16-word block by one scheduled word, fuel times. -/
def sha_extend_go (ws : List Nat) : Nat → List Nat
  | 0 => ws
  | n + 1 =>
    sha_extend_go
      (ws ++ [w32mod (ssig1 (ws.getD (ws.length - 2) 0) + ws.getD (ws.length - 7) 0 +
                      ssig0 (ws.getD (ws.length - 15) 0) + ws.getD (ws.length - 16) 0)])
      n

/-- Message schedule: 16 words to 64 words. -/
def sha_extend (block : List Nat) : List Nat := sha_extend_go block 48

/-- One SHA-256 compression round on state [a,b,c,d,e,f,g,h]. -/
def sha_round (st : List Nat) (kw : Nat × Nat) : List Nat :=
  let a := st.getD 0 0
  let b := st.getD 1 0
  let c := st.getD 2 0
  let d := st.getD 3 0
  let e := st.getD 4 0
  let f := st.getD 5 0
  let g := st.getD 6 0
  let h := st.getD 7 0
  let t1 := w32mod (h + bsig1 e + sha_ch e f g + kw.1 + kw.2)
  let t2 := w32mod (bsig0 a + sha_maj a b c)
  [w32mod (t1 + t2), a, b, c, w32mod (d + t1), e, f, g]

/-- Compress one 16-word block into the running hash. -/
def sha_compress (hs : List Nat) (block : List Nat) : List Nat :=
  let ws := sha_extend block
  let st := (shaK.zip ws).foldl sha_round hs
  (hs.zip st).map fun p => w32mod (p.1 + p.2)

/-- Big-endian byte expansion of n into k bytes. -/
def nat_bytes_be : Nat → Nat → List Nat
  | 0, _ => []
  | k + 1, n => nat_bytes_be k (n / 256) ++ [n % 256]

/-- SHA-256 padding of a byte message. -/
def sha_pad (msg : List Nat) : List Nat :=
  msg ++ [128] ++ List.replicate ((119 - msg.length % 64) % 64) 0 ++
    nat_bytes_be 8 (8 * msg.length % 18446744073709551616)

/-- Group bytes into 32-bit big-endian words. -/
def bytes_to_words : List Nat → List Nat
  | b0 :: b1 :: b2 :: b3 :: rest =>
    (b0 * 16777216 + b1 * 65536 + b2 * 256 + b3) :: bytes_to_words rest
  | _ => []

/-- Split a byte list into 64-byte chunks. -/
def to_blocks (l : List Nat) : List (List Nat) :=
  match l with
  | [] => []
  | a :: as => ((a :: as).take 64) :: to_blocks ((a :: as).drop 64)
termination_by l.length
decreasing_by simp; omega

/-- SHA-256 of a byte message, as eight 32-bit words. -/
def sha256_words (msg : List Nat) : List Nat :=
  ((to_blocks (sha_pad msg)).map bytes_to_words).foldl sha_compress shaH0

/-- Lowercase hex digit. -/
def hex_digit (n : Nat) : Char := if n < 10 then Char.ofNat (48 + n) else Char.ofNat (87 + n)

/-- k-digit big-endian hex expansion. -/
def hex_go : Nat → Nat → List Char
  | 0, _ => []
  | k + 1, n => hex_go k (n / 16) ++ [hex_digit (n % 16)]

/-- hexdigest of a byte message: 64 lowercase hex characters. -/
def sha256hex (msg : List Nat) : String :=
  String.mk ((sha256_words msg).foldr (fun w acc => hex_go 8 w ++ acc) [])

/-- UTF-8 encoding of one unicode scalar value. -/
def utf8_char (c : Nat) : List Nat :=
  if c < 128 then [c]
  else if c < 2048 then [192 + c / 64, 128 + c % 64]
  else if c < 65536 then [224 + c / 4096, 128 + c / 64 % 64, 128 + c % 64]
  else [240 + c / 262144, 128 + c / 4096 % 64, 128 + c / 64 % 64, 128 + c % 64]

/-- UTF-8 encoding of a string (Python str.encode("utf-8")). -/
def utf8_bytes (s : String) : List Nat :=
  s.data.foldr (fun c acc => utf8_char c.toNat ++ acc) []

/-- stable_review_key from trustpilot_scraper_dupefix.py, defined
identically in sortingapp/app/scrape_reviews.py: prefer the canonical
permalink; otherwise sha256 over the pipe-joined stripped core fields. -/
def stable_review_key (reviewer date_str link text : String) : String :=
  let link_key := canonical_link (some link)
  if link_key != "" then
    "link::" ++ link_key
  else
    "hash::" ++ sha256hex (utf8_bytes (py_strip reviewer ++ "|" ++ py_strip date_str ++ "|" ++ py_strip text))

/- ----------------------- Shared loop data model ----------------------- -/

/-- One raw review card as the extractor collaborator hands it to the loop:
reviewer name, review text, optional permalink, and the optional parsed
date, modelled as an abstract timeline value (Int, for datetime
comparisons) paired with its strftime("%Y-%m-%d") string; none models an
unparseable or missing date (the except-branch of the try). -/
structure RawRecord where
  reviewer : String
  text : String
  link : Option String
  date : Option (Int × String)
deriving Repr, DecidableEq

/-- One accepted review dict as appended to the reviews list. -/
structure Review where
  reviewer : String
  date : String
  link : String
  text : String
deriving Repr, DecidableEq

/-- What one iteration of the while loop observes for its page: either the
retry loop exhausted all attempts (url set to None), or the page loaded
and driver.find_elements returned these blocks (possibly none). -/
inductive PageResult where
  | fetchFail
  | content (blocks : List RawRecord)
deriving Repr, DecidableEq

/-- How a finite run ends: the loop hit a break, or it consumed every
provided page while still wanting to continue. -/
inductive RunOutcome where
  | stopped
  | exhausted
deriving Repr, DecidableEq

/-- Mutable session state of the dupefix/sortingapp while loop. -/
structure ScrapeState where
  reviews : List Review
  seen_keys : List String
  page : Nat
  consecutive_no_additions : Nat
  previous_page_signature : Option (List String)
  same_page_signature_count : Nat
deriving Repr, DecidableEq

/-- Session state at run start: nothing collected, cursor on page 1. -/
def initState : ScrapeState :=
  { reviews := [], seen_keys := [], page := 1, consecutive_no_additions := 0,
    previous_page_signature := none, same_page_signature_count := 0 }

/-- Per-page accumulator of the inner for-block loop (dupefix and
sortingapp variants share its shape). -/
structure PageAccum where
  reviews : List Review
  seen_keys : List String
  page_found : Nat
  page_added : Nat
  sig_links : List String
  all_older : Bool
deriving Repr, DecidableEq

/- ----------------------- trustpilot_scraper_dupefix.py ----------------- -/

/-- Run configuration of trustpilot_scraper_dupefix.scrape_reviews: the
mode number, max_pages, the cutoff_date precomputed once at session start
from months (none when months is falsy), and the prepared keyword_and /
keyword_or lists with keywordsGiven modelling the truthiness of the raw
keywords argument. -/
structure DfConfig where
  mode : Nat
  max_pages : Option Nat
  cutoff_date : Option Int
  keywordsGiven : Bool
  keyword_and : List String
  keyword_or : List String
deriving Repr, DecidableEq

/-- One iteration of the for-block loop in the dupefix variant: append the
canonical link to the page signature when the raw link is truthy; skip the
record when the date is unparseable; lower the all-older flag when the
date is on or after the cutoff; apply the keyword filter; compute the
stable key; skip silently when the key was seen; otherwise record the key
and append the review. -/
def df_process_block (cfg : DfConfig) (st : PageAccum) (r : RawRecord) : PageAccum :=
  let st := { st with page_found := st.page_found + 1 }
  let st :=
    match r.link with
    | some l =>
      if l != "" then { st with sig_links := st.sig_links ++ [canonical_link (some l)] }
      else st
    | none => st
  match r.date with
  | none => st
  | some (dv, ds) =>
    let st :=
      if cfg.cutoff_date.isSome && decide (cfg.cutoff_date.getD 0 ≤ dv) then
        { st with all_older := false }
      else st
    if cfg.keywordsGiven && !(keyword_accepts cfg.keyword_and cfg.keyword_or r.text) then st
    else
      let key := stable_review_key r.reviewer ds (r.link.getD "") r.text
      if key ∈ st.seen_keys then st
      else
        { st with seen_keys := st.seen_keys ++ [key],
                  reviews := st.reviews ++ [⟨r.reviewer, ds, canonical_link r.link, r.text⟩],
                  page_added := st.page_added + 1 }

/-- The dupefix for-block loop over the whole page. -/
def df_process_blocks (cfg : DfConfig) (st : PageAccum) (blocks : List RawRecord) : PageAccum :=
  blocks.foldl (df_process_block cfg) st

/-- Fresh per-page accumulator (page_all_older_than_cutoff starts True
exactly when a cutoff_date exists). -/
def pageAccumInit (s : ScrapeState) (cutoff : Option Int) : PageAccum :=
  { reviews := s.reviews, seen_keys := s.seen_keys, page_found := 0, page_added := 0,
    sig_links := [], all_older := cutoff.isSome }

/-- One full while-loop iteration of the dupefix variant, given what the
page produced; returns the new state and whether the loop breaks after
this iteration. -/
def df_page_step (cfg : DfConfig) (s : ScrapeState) : PageResult → ScrapeState × Bool
  | .fetchFail => ({ s with page := s.page + 1 }, false)
  | .content blocks =>
    if blocks.isEmpty then
      let cons := s.consecutive_no_additions + 1
      let stop := (cfg.mode != 1 || !(py_truthy_nat cfg.max_pages)) && decide (cons ≥ 3)
      ({ s with page := s.page + 1, consecutive_no_additions := cons }, stop)
    else
      let st := df_process_blocks cfg (pageAccumInit s cfg.cutoff_date) blocks
      let sig := st.sig_links.take 20
      let sameCount :=
        match s.previous_page_signature with
        | some p => if p = sig then s.same_page_signature_count + 1 else 0
        | none => 0
      let cons := if st.page_added == 0 then s.consecutive_no_additions + 1 else 0
      let shouldStop :=
        if cfg.mode == 1 then
          if !(py_truthy_nat cfg.max_pages) then
            decide (sameCount ≥ 1) || decide (cons ≥ 3)
          else false
        else if cfg.mode == 2 then
          (cfg.cutoff_date.isSome && st.all_older && (st.page_added == 0 || decide (cons ≥ 1)))
            || decide (sameCount ≥ 1)
        else if cfg.mode == 3 then
          decide (cons ≥ 3) || decide (sameCount ≥ 1)
        else false
      ({ reviews := st.reviews, seen_keys := st.seen_keys, page := s.page + 1,
         consecutive_no_additions := cons, previous_page_signature := some sig,
         same_page_signature_count := sameCount }, shouldStop)

/-- The dupefix while loop over a finite supply of pages, including the
bounded-page-limit check performed before fetching. -/
def df_run (cfg : DfConfig) (s : ScrapeState) : List PageResult → ScrapeState × RunOutcome
  | [] => (s, .exhausted)
  | p :: ps =>
    if cfg.mode == 1 && py_truthy_nat cfg.max_pages && decide (s.page > cfg.max_pages.getD 0) then
      (s, .stopped)
    else
      let r := df_page_step cfg s p
      if r.2 then (r.1, .stopped) else df_run cfg r.1 ps

/-- The retry for-loop inside Fetching: each list entry is the outcome of
one driver.get attempt, tried in order until a success breaks the loop;
returns whether the page loaded and how many attempts were made. The
caller passes one potential outcome per allowed attempt (max_retries = 3). -/
def retry_fetch : List Bool → Bool × Nat
  | [] => (false, 0)
  | o :: rest =>
    if o then (true, 1)
    else
      let p := retry_fetch rest
      (p.1, p.2 + 1)

/- ----------------------- sortingapp/app/scrape_reviews.py -------------- -/

/-- Run configuration of the sortingapp variant: as DfConfig plus the
optional date-interval bounds start_dt / end_dt parsed once at session
start (mode 4 supplies both). -/
structure SaConfig where
  mode : Nat
  max_pages : Option Nat
  cutoff_date : Option Int
  keywordsGiven : Bool
  keyword_and : List String
  keyword_or : List String
  start_dt : Option Int
  end_dt : Option Int
deriving Repr, DecidableEq

/-- One iteration of the for-block loop in the sortingapp variant: like
the dupefix one, but an empty or "See more"-suffixed text is skipped
before anything else, and a parseable date outside [start_dt, end_dt] is
skipped after the cutoff-flag update. -/
def sa_process_block (cfg : SaConfig) (st : PageAccum) (r : RawRecord) : PageAccum :=
  let st := { st with page_found := st.page_found + 1 }
  if r.text == "" || ends_with r.text "See more" then st
  else
    let st :=
      match r.link with
      | some l =>
        if l != "" then { st with sig_links := st.sig_links ++ [canonical_link (some l)] }
        else st
      | none => st
    match r.date with
    | none => st
    | some (dv, ds) =>
      let st :=
        if cfg.cutoff_date.isSome && decide (cfg.cutoff_date.getD 0 ≤ dv) then
          { st with all_older := false }
        else st
      if cfg.start_dt.isSome && decide (dv < cfg.start_dt.getD 0) then st
      else if cfg.end_dt.isSome && decide (cfg.end_dt.getD 0 < dv) then st
      else if cfg.keywordsGiven && !(keyword_accepts cfg.keyword_and cfg.keyword_or r.text) then st
      else
        let key := stable_review_key r.reviewer ds (r.link.getD "") r.text
        if key ∈ st.seen_keys then st
        else
          { st with seen_keys := st.seen_keys ++ [key],
                    reviews := st.reviews ++ [⟨r.reviewer, ds, canonical_link r.link, r.text⟩],
                    page_added := st.page_added + 1 }

/-- The sortingapp for-block loop over the whole page. -/
def sa_process_blocks (cfg : SaConfig) (st : PageAccum) (blocks : List RawRecord) : PageAccum :=
  blocks.foldl (sa_process_block cfg) st

/-- One full while-loop iteration of the sortingapp variant. The
mode-specific stopping rules are textually the same as in the dupefix
variant: branches exist for modes 1, 2 and 3 only — mode 4 (date
interval) falls through with should_stop left False. -/
def sa_page_step (cfg : SaConfig) (s : ScrapeState) : PageResult → ScrapeState × Bool
  | .fetchFail => ({ s with page := s.page + 1 }, false)
  | .content blocks =>
    if blocks.isEmpty then
      let cons := s.consecutive_no_additions + 1
      let stop := (cfg.mode != 1 || !(py_truthy_nat cfg.max_pages)) && decide (cons ≥ 3)
      ({ s with page := s.page + 1, consecutive_no_additions := cons }, stop)
    else
      let st := sa_process_blocks cfg (pageAccumInit s cfg.cutoff_date) blocks
      let sig := st.sig_links.take 20
      let sameCount :=
        match s.previous_page_signature with
        | some p => if p = sig then s.same_page_signature_count + 1 else 0
        | none => 0
      let cons := if st.page_added == 0 then s.consecutive_no_additions + 1 else 0
      let shouldStop :=
        if cfg.mode == 1 then
          if !(py_truthy_nat cfg.max_pages) then
            decide (sameCount ≥ 1) || decide (cons ≥ 3)
          else false
        else if cfg.mode == 2 then
          (cfg.cutoff_date.isSome && st.all_older && (st.page_added == 0 || decide (cons ≥ 1)))
            || decide (sameCount ≥ 1)
        else if cfg.mode == 3 then
          decide (cons ≥ 3) || decide (sameCount ≥ 1)
        else false
      ({ reviews := st.reviews, seen_keys := st.seen_keys, page := s.page + 1,
         consecutive_no_additions := cons, previous_page_signature := some sig,
         same_page_signature_count := sameCount }, shouldStop)

/-- The sortingapp while loop over a finite supply of pages. -/
def sa_run (cfg : SaConfig) (s : ScrapeState) : List PageResult → ScrapeState × RunOutcome
  | [] => (s, .exhausted)
  | p :: ps =>
    if cfg.mode == 1 && py_truthy_nat cfg.max_pages && decide (s.page > cfg.max_pages.getD 0) then
      (s, .stopped)
    else
      let r := sa_page_step cfg s p
      if r.2 then (r.1, .stopped) else sa_run cfg r.1 ps

/- ----------------------- trustpilot_scraper.py (original) -------------- -/

/-- Run configuration of the original trustpilot_scraper variant (no page
signature, dedup on raw links). -/
structure OgConfig where
  mode : Nat
  max_pages : Option Nat
  cutoff_date : Option Int
  keywordsGiven : Bool
  keyword_and : List String
  keyword_or : List String
deriving Repr, DecidableEq

/-- Per-page accumulator of the original variant. -/
structure OgPageAccum where
  reviews : List Review
  seen_links : List String
  page_found : Nat
  page_added : Nat
deriving Repr, DecidableEq

/-- One iteration of the for-block loop in the original variant: the link
falls back to the page url when the permalink is falsy; the record is
skipped on unparseable date, then on a date before the cutoff; then the
raw link is tested against and inserted into seen_links, and only
afterwards is the keyword filter applied before appending. -/
def og_process_block (cfg : OgConfig) (url : String) (st : OgPageAccum) (r : RawRecord) :
    OgPageAccum :=
  let st := { st with page_found := st.page_found + 1 }
  let review_link :=
    match r.link with
    | some l => if l != "" then l else url
    | none => url
  match r.date with
  | none => st
  | some (dv, ds) =>
    if cfg.cutoff_date.isSome && decide (dv < cfg.cutoff_date.getD 0) then st
    else if review_link ∈ st.seen_links then st
    else
      let st := { st with seen_links := st.seen_links ++ [review_link] }
      if cfg.keywordsGiven && !(keyword_accepts cfg.keyword_and cfg.keyword_or r.text) then st
      else
        { st with reviews := st.reviews ++ [⟨r.reviewer, ds, review_link, r.text⟩],
                  page_added := st.page_added + 1 }

/-- The original variant's for-block loop over the whole page. -/
def og_process_blocks (cfg : OgConfig) (url : String) (st : OgPageAccum)
    (blocks : List RawRecord) : OgPageAccum :=
  blocks.foldl (og_process_block cfg url) st

/- ----------------------- dedupe_results.py ----------------------------- -/

/-- Collapse every run of two or more spaces into a single space. -/
def squeeze_spaces : List Char → List Char
  | [] => []
  | [c] => [c]
  | a :: b :: t =>
    if a == ' ' && b == ' ' then squeeze_spaces (b :: t)
    else a :: squeeze_spaces (b :: t)

/-- normalize_whitespace from dedupe_results.py: strip, replace each
maximal whitespace run by one space (re.sub of \s+), then lowercase. -/
def dr_normalize_whitespace (s : String) : String :=
  String.mk
    ((squeeze_spaces ((strip_chars s.data).map fun c => if c.isWhitespace then ' ' else c)).map
      Char.toLower)

/-- canonical_link from dedupe_results.py: strips the query string only
(no fragment handling), then surrounding whitespace. -/
def dr_canonical_link (link : String) : String :=
  if link = "" then "" else py_strip (String.mk (link.data.takeWhile (· != '?')))

/-- One stored output row (reviewer/date/link/text fields of the dict). -/
structure DRec where
  reviewer : String
  date : String
  link : String
  text : String
deriving Repr, DecidableEq

/-- review_key from dedupe_results.py: the normalized four-field tuple. -/
def dr_review_key (r : DRec) : String × String × String × String :=
  (dr_normalize_whitespace r.reviewer, dr_normalize_whitespace r.date,
   dr_canonical_link r.link, dr_normalize_whitespace r.text)

/-- The for-loop of dedupe_records with its running seen set. -/
def dr_dedupe_aux (seen : List (String × String × String × String)) :
    List DRec → List DRec
  | [] => []
  | r :: t =>
    if dr_review_key r ∈ seen then dr_dedupe_aux seen t
    else r :: dr_dedupe_aux (dr_review_key r :: seen) t

/-- dedupe_records from dedupe_results.py: keep each record whose
normalized key has not been seen yet, in input order. -/
def dr_dedupe_records (l : List DRec) : List DRec := dr_dedupe_aux [] l

/- ----------------------- Concrete inputs used by witnesses ------------- -/

/-- A record whose parseable date (value 50) lies before every cutoff and
interval bound used in the concrete configurations below. -/
def recOld : RawRecord :=
  { reviewer := "A", text := "hello", link := some "https://x/reviews/1",
    date := some (50, "2020-01-01") }

/-- A record without a permalink and with an unparseable date. -/
def recNoLink : RawRecord :=
  { reviewer := "B", text := "bla", link := none, date := none }

/-- A record whose extracted text is empty. -/
def recEmptyText : RawRecord :=
  { reviewer := "C", text := "", link := some "https://x/reviews/7",
    date := some (150, "2020-06-01") }

/-- sortingapp configuration: date-interval mode (mode 4), dates 100..200. -/
def cfgSaDateRange : SaConfig :=
  { mode := 4, max_pages := none, cutoff_date := none, keywordsGiven := false,
    keyword_and := [], keyword_or := [], start_dt := some 100, end_dt := some 200 }

/-- dupefix configuration: months-back mode (mode 2) with cutoff 100. -/
def cfgDfMonths : DfConfig :=
  { mode := 2, max_pages := none, cutoff_date := some 100, keywordsGiven := false,
    keyword_and := [], keyword_or := [] }

/-- dupefix configuration: all-pages mode (mode 1, unbounded). -/
def cfgDfAll : DfConfig :=
  { mode := 1, max_pages := none, cutoff_date := none, keywordsGiven := false,
    keyword_and := [], keyword_or := [] }

/-- dupefix configuration: keyword mode (mode 3) requiring "refund". -/
def cfgDfKeywords : DfConfig :=
  { mode := 3, max_pages := none, cutoff_date := none, keywordsGiven := true,
    keyword_and := ["refund"], keyword_or := [] }

/-- sortingapp configuration: keyword mode (mode 3) requiring "refund". -/
def cfgSaKeywords : SaConfig :=
  { mode := 3, max_pages := none, cutoff_date := none, keywordsGiven := true,
    keyword_and := ["refund"], keyword_or := [], start_dt := none, end_dt := none }

/-- original-variant configuration: months-back mode with cutoff 100. -/
def cfgOgMonths : OgConfig :=
  { mode := 2, max_pages := none, cutoff_date := some 100, keywordsGiven := false,
    keyword_and := [], keyword_or := [] }

/-- original-variant configuration: keyword mode requiring "refund". -/
def cfgOgKeywords : OgConfig :=
  { mode := 3, max_pages := none, cutoff_date := none, keywordsGiven := true,
    keyword_and := ["refund"], keyword_or := [] }

/-- Empty page accumulator of the original variant. -/
def ogAccum0 : OgPageAccum :=
  { reviews := [], seen_links := [], page_found := 0, page_added := 0 }

/-- The page url the original variant falls back to for linkless records. -/
def ogUrl : String := "https://www.trustpilot.com/review/x?stars=1&sort=recency&page=1"

/-- A session state whose no-addition streak is already 2. -/
def state2 : ScrapeState := { initState with consecutive_no_additions := 2, page := 3 }

/-- The signature contract exactly as the specification words it: the
canonical links of the first 20 records in extraction order, with an
empty-string entry kept at the position of every linkless record. Stated
from the spec only, for comparison against the code's construction. -/
def signature_per_spec (blocks : List RawRecord) : List String :=
  ((blocks.map fun r => canonical_link r.link).take 20)

/-- The page signature the dupefix code actually builds, in closed form:
one entry per record whose raw link is truthy, namely its canonical link;
linkless records contribute no entry at all. -/
def df_signature_links (blocks : List RawRecord) : List String :=
  blocks.filterMap fun r =>
    match r.link with
    | some l => if l != "" then some (canonical_link (some l)) else none
    | none => none

/- ======================= Theorems ======================= -/

/-- Elements of dropWhile keep their membership in the original list. -/
theorem mem_of_mem_dropWhile {p : Char → Bool} {l : List Char} {a : Char}
    (h : a ∈ l.dropWhile p) : a ∈ l := by
  induction l with
  | nil => simp at h
  | cons c t ih =>
    by_cases hc : p c
    · simp only [List.dropWhile_cons, hc, if_true] at h
      exact List.mem_cons_of_mem c (ih h)
    · simp only [List.dropWhile_cons, hc, if_false] at h
      exact h

/-- Elements of takeWhile keep their membership in the original list. -/
theorem mem_of_mem_takeWhile {p : Char → Bool} {l : List Char} {a : Char}
    (h : a ∈ l.takeWhile p) : a ∈ l := by
  induction l with
  | nil => simp at h
  | cons c t ih =>
    by_cases hc : p c
    · simp only [List.takeWhile_cons, hc, if_true] at h
      rcases List.mem_cons.mp h with h | h
      · exact h ▸ List.mem_cons_self c t
      · exact List.mem_cons_of_mem c (ih h)
    · simp only [List.takeWhile_cons, hc, if_false] at h
      simp at h

/-- Elements of strip_chars keep their membership in the original list. -/
theorem mem_of_mem_strip {l : List Char} {a : Char} (h : a ∈ strip_chars l) : a ∈ l := by
  unfold strip_chars at h
  rw [List.mem_reverse] at h
  have h2 := mem_of_mem_dropWhile h
  rw [List.mem_reverse] at h2
  exact mem_of_mem_dropWhile h2

/-- The head of a dropWhile result does not satisfy the predicate. -/
theorem dropWhile_head_not (p : Char → Bool) (l : List Char) :
    ∀ a ∈ (l.dropWhile p).head?, p a = false := by
  induction l with
  | nil => simp
  | cons c t ih =>
    by_cases hc : p c
    · simp only [List.dropWhile_cons, hc, if_true]
      exact ih
    · simp only [List.dropWhile_cons, hc, if_false, Bool.false_eq_true]
      intro a ha
      have hca : a = c := by simp at ha; exact ha.symm
      rw [hca]
      exact Bool.eq_false_iff.mpr hc

/-- A list whose head fails the predicate is unchanged by dropWhile. -/
theorem dropWhile_eq_self_of_head {p : Char → Bool} {l : List Char}
    (h : ∀ a ∈ l.head?, p a = false) : l.dropWhile p = l := by
  cases l with
  | nil => rfl
  | cons c t =>
    have hc : p c = false := h c (by simp)
    simp [List.dropWhile_cons, hc]

/-- Stripping whitespace is idempotent. -/
theorem strip_chars_idem (l : List Char) : strip_chars (strip_chars l) = strip_chars l := by
  unfold strip_chars
  set A := l.dropWhile Char.isWhitespace with hA
  set B := A.reverse.dropWhile Char.isWhitespace with hB
  have h1 : B.reverse.dropWhile Char.isWhitespace = B.reverse := by
    apply dropWhile_eq_self_of_head
    intro a ha
    cases hBr : B.reverse with
    | nil => rw [hBr] at ha; simp at ha
    | cons c t =>
      rw [hBr] at ha
      have hac : c = a := by simpa using ha
      subst hac
      have hpre : A = B.reverse ++ (A.reverse.takeWhile Char.isWhitespace).reverse := by
        rw [hB]
        rw [← List.reverse_append, List.takeWhile_append_dropWhile, List.reverse_reverse]
      have hhead : A.head? = some c := by
        rw [hpre, hBr]
        simp
      have hnot := dropWhile_head_not Char.isWhitespace l
      rw [← hA] at hnot
      exact hnot c (by rw [hhead]; simp)
  rw [h1, List.reverse_reverse, hB]
  rw [dropWhile_eq_self_of_head (dropWhile_head_not Char.isWhitespace A.reverse)]

/-- Claim C9: link canonicalization (strip fragment, then query, then
whitespace) is idempotent for every input, including the empty string and
an absent link. -/
theorem C9_canonical_link_idempotent (x : Option String) :
    canonical_link (some (canonical_link x)) = canonical_link x := by
  have main : ∀ h : String, h ≠ "" →
      canonical_link (some (canonical_link (some h))) = canonical_link (some h) := by
    intro h hh
    have hcanon : canonical_link (some h) =
        py_strip (String.mk ((h.data.takeWhile (· != '#')).takeWhile (· != '?'))) := by
      simp [canonical_link, hh]
    by_cases hr : canonical_link (some h) = ""
    · rw [hr]; rfl
    · rw [hcanon] at hr ⊢
      have hq : ∀ a ∈ (h.data.takeWhile (· != '#')).takeWhile (· != '?'),
          (a != '?') = true := by
        intro a ha
        have h0 := List.mem_takeWhile_imp ha
        exact h0
      have hs : ∀ a ∈ h.data.takeWhile (· != '#'), (a != '#') = true := by
        intro a ha
        have h0 := List.mem_takeWhile_imp ha
        exact h0
      have hmem : ∀ a ∈ strip_chars ((h.data.takeWhile (· != '#')).takeWhile (· != '?')),
          (a != '#') = true ∧ (a != '?') = true := by
        intro a ha
        have haT := mem_of_mem_strip ha
        exact ⟨hs a (mem_of_mem_takeWhile haT), hq a haT⟩
      have hdata : (py_strip (String.mk
          ((h.data.takeWhile (· != '#')).takeWhile (· != '?')))).data =
          strip_chars ((h.data.takeWhile (· != '#')).takeWhile (· != '?')) := rfl
      simp only [canonical_link, if_neg hr]
      rw [hdata]
      have h1 : (strip_chars ((h.data.takeWhile (· != '#')).takeWhile (· != '?'))).takeWhile
          (· != '#') = strip_chars ((h.data.takeWhile (· != '#')).takeWhile (· != '?')) :=
        List.takeWhile_eq_self_iff.mpr fun a ha => (hmem a ha).1
      rw [h1]
      have h2 : (strip_chars ((h.data.takeWhile (· != '#')).takeWhile (· != '?'))).takeWhile
          (· != '?') = strip_chars ((h.data.takeWhile (· != '#')).takeWhile (· != '?')) :=
        List.takeWhile_eq_self_iff.mpr fun a ha => (hmem a ha).2
      rw [h2]
      show String.mk (strip_chars (strip_chars
        ((h.data.takeWhile (· != '#')).takeWhile (· != '?')))) =
        py_strip (String.mk ((h.data.takeWhile (· != '#')).takeWhile (· != '?')))
      rw [strip_chars_idem]
      rfl
  match x with
  | none => rfl
  | some h =>
    by_cases hh : h = ""
    · subst hh; rfl
    · exact main h hh

/-- Claim C2: in Keywords mode, with non-empty AND terms a body is
accepted exactly when every AND term occurs case-insensitively in it (the
OR outcome cannot overturn that); with no AND terms and non-empty OR
terms it is accepted exactly when some OR term occurs. -/
theorem C2_keyword_and_or (keyword_and keyword_or : List String) (text : String) :
    (keyword_and ≠ [] →
      (keyword_accepts keyword_and keyword_or text = true ↔
        keyword_and.all (fun k => py_in (str_lower k) (str_lower text)) = true)) ∧
    (keyword_and = [] → keyword_or ≠ [] →
      (keyword_accepts keyword_and keyword_or text = true ↔
        keyword_or.any (fun k => py_in (str_lower k) (str_lower text)) = true)) := by
  constructor
  · intro hAnd
    have hne : keyword_and.isEmpty = false := by
      cases keyword_and with
      | nil => exact absurd rfl hAnd
      | cons a as => rfl
    unfold keyword_accepts
    rw [hne]
    cases hA : keyword_and.all fun k => py_in (str_lower k) (str_lower text) <;>
      cases hO : keyword_or.any fun k => py_in (str_lower k) (str_lower text) <;>
      cases hOe : keyword_or.isEmpty <;> simp_all
  · intro hAnd hOr
    subst hAnd
    have hne : keyword_or.isEmpty = false := by
      cases keyword_or with
      | nil => exact absurd rfl hOr
      | cons a as => rfl
    unfold keyword_accepts
    rw [hne]
    cases hO : keyword_or.any fun k => py_in (str_lower k) (str_lower text) <;> simp_all

/-- Witness for C2 at concrete inputs covering both branches. -/
theorem C2_keyword_and_or_witness :
    (keyword_accepts ["refund"] ["slow", "rude"] "refund only" = true ↔
      (["refund"].all fun k => py_in (str_lower k) (str_lower "refund only")) = true) ∧
    (keyword_accepts [] ["slow", "rude"] "very SLOW service" = true ↔
      ((["slow", "rude"] : List String).any
        fun k => py_in (str_lower k) (str_lower "very SLOW service")) = true) :=
  ⟨(C2_keyword_and_or ["refund"] ["slow", "rude"] "refund only").1 (by decide),
   (C2_keyword_and_or [] ["slow", "rude"] "very SLOW service").2 rfl (by decide)⟩

/-- Claim C6: the identity key prefers the canonical permalink when it is
non-empty, and otherwise is the SHA-256 hexdigest of the pipe-joined
stripped reviewer, ISO date and body; as a pure function it is
deterministic on identical inputs. -/
theorem C6_stable_review_key (reviewer date_str link text : String) :
    (canonical_link (some link) ≠ "" →
      stable_review_key reviewer date_str link text =
        "link::" ++ canonical_link (some link)) ∧
    (canonical_link (some link) = "" →
      stable_review_key reviewer date_str link text =
        "hash::" ++ sha256hex (utf8_bytes
          (py_strip reviewer ++ "|" ++ py_strip date_str ++ "|" ++ py_strip text))) ∧
    stable_review_key reviewer date_str link text =
      stable_review_key reviewer date_str link text := by
  refine ⟨fun h => ?_, fun h => ?_, rfl⟩
  · simp [stable_review_key, bne_iff_ne, h]
  · simp [stable_review_key, h]

/-- Witness for C6: a link-bearing input takes the link branch, a linkless
input takes the hash branch. -/
theorem C6_stable_review_key_witness :
    stable_review_key "A" "2024-01-02" "https://x/reviews/1?q=1#f" "hello" =
      "link::" ++ canonical_link (some "https://x/reviews/1?q=1#f") ∧
    stable_review_key "A" "2024-01-02" "" "hello" =
      "hash::" ++ sha256hex (utf8_bytes
        (py_strip "A" ++ "|" ++ py_strip "2024-01-02" ++ "|" ++ py_strip "hello")) :=
  ⟨(C6_stable_review_key "A" "2024-01-02" "https://x/reviews/1?q=1#f" "hello").1 (by decide),
   (C6_stable_review_key "A" "2024-01-02" "" "hello").2.1 rfl⟩

/-- The offline dedupe pass returns a subsequence of its input. -/
theorem dr_aux_sublist (l : List DRec) :
    ∀ seen, (dr_dedupe_aux seen l).Sublist l := by
  induction l with
  | nil => intro seen; simp [dr_dedupe_aux]
  | cons r t ih =>
    intro seen
    unfold dr_dedupe_aux
    by_cases h : dr_review_key r ∈ seen
    · simp only [if_pos h]
      exact (ih seen).cons r
    · simp only [if_neg h]
      exact (ih (dr_review_key r :: seen)).cons₂ r

/-- Keys listed in the dedupe output are pairwise distinct and disjoint
from the running seen set. -/
theorem dr_aux_nodup (l : List DRec) :
    ∀ seen, ((dr_dedupe_aux seen l).map dr_review_key).Nodup ∧
      ∀ k ∈ (dr_dedupe_aux seen l).map dr_review_key, k ∉ seen := by
  induction l with
  | nil => intro seen; simp [dr_dedupe_aux]
  | cons r t ih =>
    intro seen
    unfold dr_dedupe_aux
    by_cases h : dr_review_key r ∈ seen
    · simp only [if_pos h]
      exact ih seen
    · simp only [if_neg h, List.map_cons, List.nodup_cons]
      obtain ⟨ih1, ih2⟩ := ih (dr_review_key r :: seen)
      refine ⟨⟨fun hmem => ?_, ih1⟩, ?_⟩
      · exact (ih2 _ hmem) (List.mem_cons_self _ _)
      · intro k hk
        rcases List.mem_cons.mp hk with rfl | hk
        · exact h
        · exact fun hks => (ih2 k hk) (List.mem_cons_of_mem _ hks)

/-- A list whose keys are pairwise distinct and unseen passes through the
dedupe loop unchanged. -/
theorem dr_aux_self (l : List DRec) :
    ∀ seen, ((l.map dr_review_key).Nodup) →
      (∀ r ∈ l, dr_review_key r ∉ seen) → dr_dedupe_aux seen l = l := by
  induction l with
  | nil => intro seen _ _; rfl
  | cons r t ih =>
    intro seen h1 h2
    unfold dr_dedupe_aux
    have hr : dr_review_key r ∉ seen := h2 r (List.mem_cons_self _ _)
    simp only [if_neg hr]
    simp only [List.map_cons, List.nodup_cons] at h1
    congr 1
    apply ih _ h1.2
    intro x hx
    intro hmem
    rcases List.mem_cons.mp hmem with he | hs
    · exact h1.1 (he ▸ List.mem_map_of_mem dr_review_key hx)
    · exact h2 x (List.mem_cons_of_mem _ hx) hs

/-- The dedupe loop only consults the seen set through membership. -/
theorem dr_aux_congr (l : List DRec) :
    ∀ s1 s2, (∀ k, k ∈ s1 ↔ k ∈ s2) → dr_dedupe_aux s1 l = dr_dedupe_aux s2 l := by
  induction l with
  | nil => intro s1 s2 _; rfl
  | cons r t ih =>
    intro s1 s2 h
    unfold dr_dedupe_aux
    by_cases hm : dr_review_key r ∈ s1
    · rw [if_pos hm, if_pos ((h _).mp hm)]
      exact ih s1 s2 h
    · rw [if_neg hm, if_neg (fun hc => hm ((h _).mpr hc))]
      congr 1
      apply ih
      intro k
      simp only [List.mem_cons]
      exact or_congr Iff.rfl (h k)

/-- Seeding the seen set with one key equals filtering that key out first. -/
theorem dr_aux_cons_filter (t : List DRec) :
    ∀ k seen, dr_dedupe_aux (k :: seen) t =
      dr_dedupe_aux seen (t.filter fun x => dr_review_key x != k) := by
  induction t with
  | nil => intro k seen; rfl
  | cons x t ih =>
    intro k seen
    have lhs_eq : dr_dedupe_aux (k :: seen) (x :: t) =
        if dr_review_key x ∈ k :: seen then dr_dedupe_aux (k :: seen) t
        else x :: dr_dedupe_aux (dr_review_key x :: k :: seen) t := rfl
    rw [lhs_eq, List.filter_cons]
    by_cases hk : dr_review_key x = k
    · have hf : (dr_review_key x != k) = false := by simp [hk]
      rw [hf, if_pos (by rw [hk]; exact List.mem_cons_self _ _)]
      simp only [Bool.false_eq_true, if_false]
      exact ih k seen
    · have hf : (dr_review_key x != k) = true := by simp [hk]
      rw [hf]
      simp only [if_true]
      have rhs_eq : dr_dedupe_aux seen (x :: t.filter fun y => dr_review_key y != k) =
          if dr_review_key x ∈ seen then
            dr_dedupe_aux seen (t.filter fun y => dr_review_key y != k)
          else x :: dr_dedupe_aux (dr_review_key x :: seen)
            (t.filter fun y => dr_review_key y != k) := rfl
      rw [rhs_eq]
      by_cases hs : dr_review_key x ∈ seen
      · rw [if_pos (List.mem_cons_of_mem _ hs), if_pos hs]
        exact ih k seen
      · rw [if_neg (by
            intro hc
            rcases List.mem_cons.mp hc with he | hm
            · exact hk he
            · exact hs hm),
          if_neg hs]
        congr 1
        rw [dr_aux_congr t (dr_review_key x :: k :: seen) (k :: dr_review_key x :: seen)
          (by intro q; simp only [List.mem_cons]; tauto)]
        exact ih k (dr_review_key x :: seen)

/-- Claim C10: the offline dedupe pass keeps exactly the first occurrence
of each normalized four-field key, preserving input order (it unfolds by
keeping the head and filtering its key from the tail), returns a
subsequence of the input, and is idempotent; its identity differs from the
engine's link-preferred key: two records sharing a link but differing in
normalized text are both kept, although the engine key would identify
them whenever the link canonicalizes non-trivially. -/
theorem C10_dedupe_pass (l : List DRec) (r1 r2 : DRec) :
    (dr_dedupe_records l).Sublist l ∧
    dr_dedupe_records (dr_dedupe_records l) = dr_dedupe_records l ∧
    (∀ r t, dr_dedupe_records (r :: t) =
      r :: dr_dedupe_records (t.filter fun x => dr_review_key x != dr_review_key r)) ∧
    (r1.link = r2.link → dr_normalize_whitespace r1.text ≠ dr_normalize_whitespace r2.text →
      dr_dedupe_records [r1, r2] = [r1, r2]) ∧
    (r1.link = r2.link → canonical_link (some r1.link) ≠ "" →
      stable_review_key r1.reviewer r1.date r1.link r1.text =
        stable_review_key r2.reviewer r2.date r2.link r2.text) := by
  refine ⟨dr_aux_sublist l [], ?_, ?_, ?_, ?_⟩
  · exact dr_aux_self _ [] (dr_aux_nodup l []).1 (by simp)
  · intro r t
    show dr_dedupe_aux [] (r :: t) = _
    unfold dr_dedupe_aux
    rw [if_neg (List.not_mem_nil _)]
    congr 1
    exact dr_aux_cons_filter t (dr_review_key r) []
  · intro _ ht
    have hk : dr_review_key r2 ≠ dr_review_key r1 := by
      intro he
      exact ht (congrArg (fun q => q.2.2.2) he).symm
    show dr_dedupe_aux [] [r1, r2] = _
    unfold dr_dedupe_aux
    rw [if_neg (List.not_mem_nil _)]
    unfold dr_dedupe_aux
    rw [if_neg (by
      intro hc
      exact hk (by simpa using hc))]
    rfl
  · intro hl h
    simp only [stable_review_key, ← hl]
    rw [if_pos (bne_iff_ne.mpr h)]
    rw [if_pos (bne_iff_ne.mpr h)]

/-- Witness for C10 at a concrete two-record input sharing a permalink but
differing in body text. -/
theorem C10_dedupe_pass_witness :
    dr_dedupe_records
      [⟨"A", "2024-01-01", "https://x/reviews/1", "good stuff"⟩,
       ⟨"A", "2024-01-01", "https://x/reviews/1", "bad stuff"⟩] =
      [⟨"A", "2024-01-01", "https://x/reviews/1", "good stuff"⟩,
       ⟨"A", "2024-01-01", "https://x/reviews/1", "bad stuff"⟩] ∧
    stable_review_key "A" "2024-01-01" "https://x/reviews/1" "good stuff" =
      stable_review_key "A" "2024-01-01" "https://x/reviews/1" "bad stuff" :=
  ⟨((C10_dedupe_pass []
      ⟨"A", "2024-01-01", "https://x/reviews/1", "good stuff"⟩
      ⟨"A", "2024-01-01", "https://x/reviews/1", "bad stuff"⟩).2.2.2.1 rfl (by decide)),
   ((C10_dedupe_pass []
      ⟨"A", "2024-01-01", "https://x/reviews/1", "good stuff"⟩
      ⟨"A", "2024-01-01", "https://x/reviews/1", "bad stuff"⟩).2.2.2.2 rfl (by decide))⟩

/-- Claim C1 counterexample: a DateRange-mode run (sortingapp mode 4)
where every one of five pages yields the same linked record outside the
requested interval. The page signature equals the previous page's from
page 2 on and the no-addition streak reaches 3 by page 3, yet the loop
never stops: after exhausting all five supplied pages it still wants to
continue, with a signature-repeat count of 4 and a streak of 5. -/
theorem C1_counterexample :
    (sa_run cfgSaDateRange initState
      (List.replicate 5 (PageResult.content [recOld]))).2 = RunOutcome.exhausted ∧
    (sa_run cfgSaDateRange initState
      (List.replicate 5 (PageResult.content [recOld]))).1.same_page_signature_count ≥ 1 ∧
    (sa_run cfgSaDateRange initState
      (List.replicate 5 (PageResult.content [recOld]))).1.consecutive_no_additions ≥ 3 := by
  decide

/-- Claim C3 (code bug): a record with a parseable date strictly before
the MonthsBack cutoff is appended anyway by the dupefix loop (the variant
only lowers the page-all-older flag, it never rejects the record), while
the original trustpilot_scraper loop rejects the same record as the spec
states. -/
theorem C3_monthsback_cutoff_divergence :
    (df_page_step cfgDfMonths initState (PageResult.content [recOld])).1.reviews =
      [⟨"A", "2020-01-01", "https://x/reviews/1", "hello"⟩] ∧
    (og_process_blocks cfgOgMonths ogUrl ogAccum0 [recOld]).reviews = [] := by
  constructor
  · decide
  · decide

/-- Claim C4 counterexample: in the original trustpilot_scraper loop the
dedup insertion precedes the keyword filter, so a record the Filter Chain
rejects (body "hello" lacking required AND term "refund") still gets its
link inserted into the seen set while never being appended. -/
theorem C4_counterexample :
    (og_process_blocks cfgOgKeywords ogUrl ogAccum0 [recOld]).seen_links =
      ["https://x/reviews/1"] ∧
    (og_process_blocks cfgOgKeywords ogUrl ogAccum0 [recOld]).reviews = [] := by
  constructor
  · decide
  · decide

/-- Claim C5 counterexample: on a page whose first record is linkless the
dupefix code builds a signature with no entry for it, not the empty-string
placeholder the specification describes, so the built signature differs
from the spec's formula. -/
theorem C5_counterexample :
    (df_process_blocks cfgDfAll (pageAccumInit initState none)
      [recNoLink, recOld]).sig_links.take 20 ≠
      signature_per_spec [recNoLink, recOld] := by
  decide

/-- Claim C7 counterexample: the dupefix loop has no empty-body guard; a
record with empty text and a fresh permalink is appended (and thus
persisted with the reviews list) in all-pages mode. -/
theorem C7_counterexample :
    (⟨"C", "2020-06-01", "https://x/reviews/7", ""⟩ : Review) ∈
      (df_page_step cfgDfAll initState (PageResult.content [recEmptyText])).1.reviews := by
  decide

/-- Claim C8 counterexample: a page whose fetch exhausted all retries is
skipped without touching the no-addition streak: with the streak at 2 in
Keywords mode (where a streak of 3 stops the run) the failed page leaves
the streak at 2 and does not stop, whereas the claim's accounting would
raise it to 3. -/
theorem C8_counterexample :
    (df_page_step cfgDfKeywords state2 PageResult.fetchFail).1.consecutive_no_additions = 2 ∧
    (df_page_step cfgDfKeywords state2 PageResult.fetchFail).1.page = state2.page + 1 ∧
    (df_page_step cfgDfKeywords state2 PageResult.fetchFail).2 = false := by
  refine ⟨rfl, rfl, rfl⟩

/-- Claim C1 amended: in DateRange mode (sortingapp mode 4) the per-page
stopping rules never fire — after any page with content the loop always
continues, whatever the signature-repeat count or no-addition streak; the
only self-stop is the generic no-content path: the iteration breaks
exactly when the page had zero extracted blocks and the no-addition
streak (after its increment) reaches 3. -/
theorem C1_daterange_stop_only_on_empty (cfg : SaConfig) (s : ScrapeState)
    (pr : PageResult) (h : cfg.mode = 4) :
    (sa_page_step cfg s pr).2 = true ↔
      pr = PageResult.content [] ∧ s.consecutive_no_additions ≥ 2 := by
  cases pr with
  | fetchFail => simp [sa_page_step]
  | content blocks =>
    cases blocks with
    | nil =>
      simp only [sa_page_step, List.isEmpty_nil, if_true, h]
      simp
    | cons b bs =>
      simp [sa_page_step, h]

/-- Witness for C1 amended: with the streak at 2, a blockless page in
mode 4 stops the run. -/
theorem C1_daterange_stop_only_on_empty_witness :
    (sa_page_step cfgSaDateRange state2 (PageResult.content [])).2 = true :=
  (C1_daterange_stop_only_on_empty cfgSaDateRange state2 (PageResult.content []) rfl).mpr
    ⟨rfl, by decide⟩

/-- Claim C8 amended: fetching retries up to 3 total attempts, stopping at
the first success (so the page loads exactly when some of the three
attempts succeeds); after exhausting retries the page is skipped: the
cursor still advances and the run is not halted, but the failed page is
not recorded as a no-addition page — the whole session state except the
cursor, including the consecutive-no-additions streak, is left unchanged. -/
theorem C8_retry_then_skip (att : List Bool) (h : att.length = 3)
    (cfg : DfConfig) (s : ScrapeState) :
    (retry_fetch att).2 ≤ 3 ∧
    ((retry_fetch att).1 = true ↔ att.any id = true) ∧
    df_page_step cfg s PageResult.fetchFail = ({ s with page := s.page + 1 }, false) := by
  obtain ⟨a, b, c, rfl⟩ := List.length_eq_three.mp h
  refine ⟨?_, ?_, rfl⟩
  · cases a <;> cases b <;> cases c <;> decide
  · cases a <;> cases b <;> cases c <;> decide

/-- Claim C4 amended (dupefix/sortingapp ordering): in both the dupefix
and the sortingapp per-record steps the key is computed only after the
keyword filter passes, and the step either leaves the seen set and the
accepted sequence both unchanged, or appends the record's key and its
review simultaneously (the key having been absent); in particular a
record the keyword filter rejects changes neither. -/
theorem C4_key_insert_iff_append (cfg : DfConfig) (scfg : SaConfig) (st su : PageAccum)
    (r q : RawRecord) :
    ((((df_process_block cfg st r).seen_keys = st.seen_keys ∧
      (df_process_block cfg st r).reviews = st.reviews) ∨
     (∃ d, r.date = some d ∧
      stable_review_key r.reviewer d.2 (r.link.getD "") r.text ∉ st.seen_keys ∧
      (df_process_block cfg st r).seen_keys =
        st.seen_keys ++ [stable_review_key r.reviewer d.2 (r.link.getD "") r.text] ∧
      (df_process_block cfg st r).reviews =
        st.reviews ++ [⟨r.reviewer, d.2, canonical_link r.link, r.text⟩])) ∧
    (cfg.keywordsGiven = true →
      keyword_accepts cfg.keyword_and cfg.keyword_or r.text = false →
      (df_process_block cfg st r).seen_keys = st.seen_keys ∧
      (df_process_block cfg st r).reviews = st.reviews)) ∧
    ((((sa_process_block scfg su q).seen_keys = su.seen_keys ∧
      (sa_process_block scfg su q).reviews = su.reviews) ∨
     (∃ d, q.date = some d ∧
      stable_review_key q.reviewer d.2 (q.link.getD "") q.text ∉ su.seen_keys ∧
      (sa_process_block scfg su q).seen_keys =
        su.seen_keys ++ [stable_review_key q.reviewer d.2 (q.link.getD "") q.text] ∧
      (sa_process_block scfg su q).reviews =
        su.reviews ++ [⟨q.reviewer, d.2, canonical_link q.link, q.text⟩])) ∧
    (scfg.keywordsGiven = true →
      keyword_accepts scfg.keyword_and scfg.keyword_or q.text = false →
      (sa_process_block scfg su q).seen_keys = su.seen_keys ∧
      (sa_process_block scfg su q).reviews = su.reviews)) := by
  constructor
  · rcases r with ⟨rv, tx, lk, dt⟩
    cases dt with
    | none =>
      have hu : (df_process_block cfg st ⟨rv, tx, lk, none⟩).seen_keys = st.seen_keys ∧
          (df_process_block cfg st ⟨rv, tx, lk, none⟩).reviews = st.reviews := by
        unfold df_process_block
        cases lk with
        | none => exact ⟨rfl, rfl⟩
        | some l =>
          by_cases hl : (l != "") = true <;> simp [hl]
      exact ⟨Or.inl hu, fun _ _ => hu⟩
    | some d =>
      constructor
      · unfold df_process_block
        cases lk with
        | none =>
          simp only
          split_ifs <;>
            first
            | exact Or.inl ⟨rfl, rfl⟩
            | (rename_i hmem; exact Or.inr ⟨d, rfl, hmem, rfl, rfl⟩)
        | some l =>
          by_cases hl : (l != "") = true <;>
            simp only [hl, if_true, if_false, Bool.false_eq_true] <;>
            split_ifs <;>
              first
              | exact Or.inl ⟨rfl, rfl⟩
              | (rename_i hmem; exact Or.inr ⟨d, rfl, hmem, rfl, rfl⟩)
      · intro h1 h2
        have hcond :
            (cfg.keywordsGiven && !(keyword_accepts cfg.keyword_and cfg.keyword_or tx)) = true := by
          rw [h1, h2]; rfl
        unfold df_process_block
        cases lk with
        | none =>
          simp only [hcond]
          split_ifs <;> exact ⟨rfl, rfl⟩
        | some l =>
          by_cases hl : (l != "") = true <;>
            simp only [hl, if_true, if_false, Bool.false_eq_true, hcond] <;>
            split_ifs <;> exact ⟨rfl, rfl⟩
  · rcases q with ⟨rv, tx, lk, dt⟩
    by_cases ht : (tx == "" || ends_with tx "See more") = true
    · have hu : (sa_process_block scfg su ⟨rv, tx, lk, dt⟩).seen_keys = su.seen_keys ∧
          (sa_process_block scfg su ⟨rv, tx, lk, dt⟩).reviews = su.reviews := by
        unfold sa_process_block
        rw [if_pos ht]
        exact ⟨rfl, rfl⟩
      exact ⟨Or.inl hu, fun _ _ => hu⟩
    · cases dt with
      | none =>
        have hu : (sa_process_block scfg su ⟨rv, tx, lk, none⟩).seen_keys = su.seen_keys ∧
            (sa_process_block scfg su ⟨rv, tx, lk, none⟩).reviews = su.reviews := by
          unfold sa_process_block
          rw [if_neg ht]
          cases lk with
          | none => exact ⟨rfl, rfl⟩
          | some l =>
            by_cases hl : (l != "") = true <;> simp [hl]
        exact ⟨Or.inl hu, fun _ _ => hu⟩
      | some d =>
        constructor
        · unfold sa_process_block
          rw [if_neg ht]
          cases lk with
          | none =>
            simp only
            split_ifs <;>
              first
              | exact Or.inl ⟨rfl, rfl⟩
              | (rename_i hmem; exact Or.inr ⟨d, rfl, hmem, rfl, rfl⟩)
          | some l =>
            by_cases hl : (l != "") = true <;>
              simp only [hl, if_true, if_false, Bool.false_eq_true] <;>
              split_ifs <;>
                first
                | exact Or.inl ⟨rfl, rfl⟩
                | (rename_i hmem; exact Or.inr ⟨d, rfl, hmem, rfl, rfl⟩)
        · intro h1 h2
          have hcond : (scfg.keywordsGiven &&
              !(keyword_accepts scfg.keyword_and scfg.keyword_or tx)) = true := by
            rw [h1, h2]; rfl
          unfold sa_process_block
          rw [if_neg ht]
          cases lk with
          | none =>
            simp only [hcond]
            split_ifs <;> exact ⟨rfl, rfl⟩
          | some l =>
            by_cases hl : (l != "") = true <;>
              simp only [hl, if_true, if_false, Bool.false_eq_true, hcond] <;>
              split_ifs <;> exact ⟨rfl, rfl⟩

/-- Witness for C4 at a concrete keyword-rejected record: both the dupefix
step and the sortingapp step leave the seen set and the accepted sequence
unchanged. -/
theorem C4_key_insert_iff_append_witness :
    ((df_process_block cfgDfKeywords (pageAccumInit initState none) recOld).seen_keys =
      (pageAccumInit initState none).seen_keys ∧
     (df_process_block cfgDfKeywords (pageAccumInit initState none) recOld).reviews =
      (pageAccumInit initState none).reviews) ∧
    ((sa_process_block cfgSaKeywords (pageAccumInit initState none) recOld).seen_keys =
      (pageAccumInit initState none).seen_keys ∧
     (sa_process_block cfgSaKeywords (pageAccumInit initState none) recOld).reviews =
      (pageAccumInit initState none).reviews) :=
  ⟨(C4_key_insert_iff_append cfgDfKeywords cfgSaKeywords (pageAccumInit initState none)
      (pageAccumInit initState none) recOld recOld).1.2 rfl (by decide),
   (C4_key_insert_iff_append cfgDfKeywords cfgSaKeywords (pageAccumInit initState none)
      (pageAccumInit initState none) recOld recOld).2.2 rfl (by decide)⟩

/-- One dupefix block contributes to the page signature exactly its
canonical link when the raw link is truthy, and nothing otherwise —
whatever the date, filter and dedup outcomes. -/
theorem df_block_sig (cfg : DfConfig) (st : PageAccum) (r : RawRecord) :
    (df_process_block cfg st r).sig_links =
      st.sig_links ++ (match r.link with
        | some l => if l != "" then [canonical_link (some l)] else []
        | none => []) := by
  rcases r with ⟨rv, tx, lk, dt⟩
  unfold df_process_block
  cases lk with
  | none =>
    simp only
    cases dt with
    | none => simp
    | some d => simp [apply_ite PageAccum.sig_links]
  | some l =>
    by_cases hl : (l != "") = true <;>
      simp only [hl, if_true, if_false, Bool.false_eq_true] <;>
      cases dt with
      | none => simp
      | some d => simp [apply_ite PageAccum.sig_links]

/-- The dupefix page fold accumulates exactly the closed-form signature
link list. -/
theorem df_blocks_sig (cfg : DfConfig) (blocks : List RawRecord) :
    ∀ st : PageAccum, (df_process_blocks cfg st blocks).sig_links =
      st.sig_links ++ df_signature_links blocks := by
  induction blocks with
  | nil => intro st; simp [df_process_blocks, df_signature_links]
  | cons r t ih =>
    intro st
    have hstep : df_process_blocks cfg st (r :: t) =
        df_process_blocks cfg (df_process_block cfg st r) t := rfl
    rw [hstep, ih, df_block_sig]
    rw [List.append_assoc]
    congr 1
    unfold df_signature_links
    rw [List.filterMap_cons]
    cases hlk : r.link with
    | none => simp
    | some l =>
      by_cases hl : (l != "") = true <;> simp [hl]

/-- Claim C5 amended: the page signature the dupefix loop stores is the
first 20 entries of the canonical links of the link-bearing records in
extraction order — linkless records contribute no entry (rather than an
empty-string placeholder) — and a repeat is flagged (count at least 1)
exactly when that sequence equals the immediately preceding page's stored
signature. -/
theorem C5_page_signature (cfg : DfConfig) (s : ScrapeState) (blocks : List RawRecord)
    (h : blocks ≠ []) :
    (df_page_step cfg s (PageResult.content blocks)).1.previous_page_signature =
      some ((df_signature_links blocks).take 20) ∧
    ((df_page_step cfg s (PageResult.content blocks)).1.same_page_signature_count ≥ 1 ↔
      s.previous_page_signature = some ((df_signature_links blocks).take 20)) := by
  have hne : blocks.isEmpty = false := by
    cases blocks with
    | nil => exact absurd rfl h
    | cons b bs => rfl
  have hsig : (df_process_blocks cfg (pageAccumInit s cfg.cutoff_date) blocks).sig_links =
      df_signature_links blocks := by
    rw [df_blocks_sig]
    show [] ++ _ = _
    rw [List.nil_append]
  have hnot : ¬(blocks.isEmpty = true) := by rw [hne]; exact Bool.false_ne_true
  simp only [df_page_step]
  rw [if_neg hnot]
  constructor
  · exact congrArg (fun z => some (List.take 20 z)) hsig
  · show (match s.previous_page_signature with
      | some p =>
        if p = List.take 20
            (df_process_blocks cfg (pageAccumInit s cfg.cutoff_date) blocks).sig_links then
          s.same_page_signature_count + 1
        else 0
      | none => 0) ≥ 1 ↔ _
    rw [hsig]
    cases s.previous_page_signature with
    | none => simp
    | some p =>
      by_cases hpe : p = (df_signature_links blocks).take 20
      · simp [hpe]
      · simp [hpe]

/-- Witness for C5 amended at a concrete two-record page. -/
theorem C5_page_signature_witness :
    (df_page_step cfgDfAll initState
      (PageResult.content [recNoLink, recOld])).1.previous_page_signature =
      some ((df_signature_links [recNoLink, recOld]).take 20) :=
  (C5_page_signature cfgDfAll initState [recNoLink, recOld] (by decide)).1

/-- One sortingapp block only ever appends a review whose text is the
record's non-empty text. -/
theorem sa_block_reviews (cfg : SaConfig) (st : PageAccum) (r : RawRecord) :
    ∀ rv ∈ (sa_process_block cfg st r).reviews, rv ∈ st.reviews ∨ rv.text ≠ "" := by
  intro rv hrv
  rcases r with ⟨rr, tx, lk, dt⟩
  unfold sa_process_block at hrv
  by_cases ht : (tx == "" || ends_with tx "See more") = true
  · rw [if_pos ht] at hrv
    exact Or.inl hrv
  · rw [if_neg ht] at hrv
    have htx : tx ≠ "" := by
      intro he
      subst he
      exact ht rfl
    cases lk with
    | none =>
      cases dt with
      | none => exact Or.inl hrv
      | some d =>
        simp only at hrv
        split_ifs at hrv
        all_goals
          first
          | exact Or.inl hrv
          | (rcases List.mem_append.mp hrv with hm | hm
             · exact Or.inl hm
             · exact Or.inr (by
                 rw [List.mem_singleton] at hm
                 rw [hm]
                 exact htx))
    | some l =>
      by_cases hl : (l != "") = true <;>
        simp only [hl, if_true, if_false, Bool.false_eq_true] at hrv <;>
        cases dt with
        | none => exact Or.inl hrv
        | some d =>
          simp only at hrv
          split_ifs at hrv
          all_goals
            first
            | exact Or.inl hrv
            | (rcases List.mem_append.mp hrv with hm | hm
               · exact Or.inl hm
               · exact Or.inr (by
                   rw [List.mem_singleton] at hm
                   rw [hm]
                   exact htx))

/-- The sortingapp page fold never introduces an empty-text review. -/
theorem sa_blocks_reviews (cfg : SaConfig) (blocks : List RawRecord) :
    ∀ st rv, rv ∈ (sa_process_blocks cfg st blocks).reviews →
      rv ∈ st.reviews ∨ rv.text ≠ "" := by
  induction blocks with
  | nil => intro st rv hm; exact Or.inl hm
  | cons r t ih =>
    intro st rv hm
    rcases ih (sa_process_block cfg st r) rv hm with h2 | h2
    · exact sa_block_reviews cfg st r rv h2
    · exact Or.inr h2

/-- One sortingapp while-loop iteration never introduces an empty-text
review. -/
theorem sa_page_reviews (cfg : SaConfig) (s : ScrapeState) (pr : PageResult) :
    ∀ rv ∈ (sa_page_step cfg s pr).1.reviews, rv ∈ s.reviews ∨ rv.text ≠ "" := by
  intro rv hm
  cases pr with
  | fetchFail => exact Or.inl hm
  | content blocks =>
    simp only [sa_page_step] at hm
    by_cases hb : blocks.isEmpty = true
    · rw [if_pos hb] at hm
      exact Or.inl hm
    · rw [if_neg hb] at hm
      exact sa_blocks_reviews cfg blocks (pageAccumInit s cfg.cutoff_date) rv hm

/-- Claim C7 amended: over any sortingapp run, in every mode and over any
page sequence, every review in the final accepted sequence either was
already present at the start or has a non-empty body — the sortingapp
core skips empty-text inputs defensively (the dupefix variant does not,
see the counterexample). -/
theorem C7_sortingapp_no_empty_body (cfg : SaConfig) (pages : List PageResult)
    (s : ScrapeState) (rv : Review)
    (h : rv ∈ (sa_run cfg s pages).1.reviews) : rv ∈ s.reviews ∨ rv.text ≠ "" := by
  induction pages generalizing s with
  | nil => exact Or.inl h
  | cons p ps ih =>
    simp only [sa_run] at h
    by_cases hpre : (cfg.mode == 1 && py_truthy_nat cfg.max_pages &&
        decide (s.page > cfg.max_pages.getD 0)) = true
    · rw [if_pos hpre] at h
      exact Or.inl h
    · rw [if_neg hpre] at h
      by_cases hstop : (sa_page_step cfg s p).2 = true
      · rw [if_pos hstop] at h
        exact sa_page_reviews cfg s p rv h
      · rw [if_neg hstop] at h
        rcases ih (sa_page_step cfg s p).1 h with h2 | h2
        · exact sa_page_reviews cfg s p rv h2
        · exact Or.inr h2

/-- Witness for C7 at a concrete run resuming from one non-empty review. -/
theorem C7_sortingapp_no_empty_body_witness :
    (⟨"A", "2024-01-02", "https://x/reviews/1", "fine"⟩ : Review) ∈
      ({ initState with
          reviews := [⟨"A", "2024-01-02", "https://x/reviews/1", "fine"⟩] } :
        ScrapeState).reviews ∨
    (⟨"A", "2024-01-02", "https://x/reviews/1", "fine"⟩ : Review).text ≠ "" :=
  C7_sortingapp_no_empty_body cfgSaDateRange []
    { initState with reviews := [⟨"A", "2024-01-02", "https://x/reviews/1", "fine"⟩] }
    ⟨"A", "2024-01-02", "https://x/reviews/1", "fine"⟩ (by decide)

/-- Witness for C8 at a concrete attempt list and session state. -/
theorem C8_retry_then_skip_witness :
    (retry_fetch [false, false, true]).2 ≤ 3 ∧
    ((retry_fetch [false, false, true]).1 = true ↔ [false, false, true].any id = true) ∧
    df_page_step cfgDfKeywords state2 PageResult.fetchFail =
      ({ state2 with page := state2.page + 1 }, false) :=
  C8_retry_then_skip [false, false, true] rfl cfgDfKeywords state2

